import Mathlib

/-!
Sliding-window rate limiter (`src/main.go`).

A shallow embedding of `RateLimiter` and of `IsRequestAllowed`, and the
properties of the admission decision proved over it.

Modelling conventions.

* `time.Time` is a wall-clock instant: a number of nanoseconds counted from the
  zero `time.Time`. An instant is representable when its whole seconds fit a
  signed 64-bit integer. `Time.Add` and `Time.After` follow the standard
  library on the seconds and nanoseconds of the instant: the seconds saturate
  at `±(2^63 - 1)`. Monotonic clock readings are not modelled.
* `time.Duration` is a signed 64-bit number of nanoseconds; `Duration.neg` is
  the unary minus of the language, which wraps at the minimum value.
* `map[string]*UserLimit` is a finite map from `String` to `UserLimit`
  (`Finmap`): two registries are equal exactly when they hold the same keys with
  the same stored sequences. Every `*UserLimit` is referenced only from its map
  slot, so assigning through the pointer is an update of the slot.
* The mutex is not modelled: one call of `IsRequestAllowed` is one function
  application on the limiter state.
-/

namespace RateLimit

/-- An instant (`time.Time`): nanoseconds from the zero `time.Time`. -/
abbrev Time := Int

/-- A signed span of time (`time.Duration`), in nanoseconds. -/
abbrev Duration := Int

/-- The value of a signed 64-bit integer expression after wrap-around. -/
def wrapInt64 (x : Int) : Int :=
  (x + 9223372036854775808) % 18446744073709551616 - 9223372036854775808

/-- The number is a signed 64-bit value. -/
def Duration.IsInt64 (d : Duration) : Prop :=
  -9223372036854775808 ≤ d ∧ d ≤ 9223372036854775807

instance (d : Duration) : Decidable (Duration.IsInt64 d) := by
  unfold Duration.IsInt64; infer_instance

/-- Unary minus on a duration (`-d`): 64-bit negation, which wraps at the
minimum value. -/
def Duration.neg (d : Duration) : Duration := wrapInt64 (-d)

/-- The whole seconds of an instant (`t.sec()`). -/
def Time.sec (t : Time) : Int := t / 1000000000

/-- The nanoseconds within the second (`t.nsec()`), from 0 to 999999999. -/
def Time.nsec (t : Time) : Int := t % 1000000000

/-- The instant is representable: its seconds are a signed 64-bit value. -/
def Time.InRange (t : Time) : Prop :=
  -9223372036854775808 ≤ Time.sec t ∧ Time.sec t ≤ 9223372036854775807

instance (t : Time) : Decidable (Time.InRange t) := by
  unfold Time.InRange; infer_instance

/-- Seconds `ext` moved by `d` seconds (`addSec` of the standard library): the
64-bit sum when it does not overflow, else the seconds saturate at
`2^63 - 1` or `-(2^63 - 1)`. -/
def addSec (ext d : Int) : Int :=
  let sum := wrapInt64 (ext + d)
  if (sum > ext ↔ d > 0) then sum
  else if d > 0 then 9223372036854775807
  else -9223372036854775807

/-- The instant `t` moved by `d` (`t.Add(d)`): the duration is split into whole
seconds and nanoseconds by truncated division, the nanoseconds are added with a
carry, and the seconds are added by `addSec`. -/
def Time.Add (t : Time) (d : Duration) : Time :=
  let dsec := Int.tdiv d 1000000000
  let nsec := Time.nsec t + Int.tmod d 1000000000
  if nsec ≥ 1000000000 then
    addSec (Time.sec t) (dsec + 1) * 1000000000 + (nsec - 1000000000)
  else if nsec < 0 then
    addSec (Time.sec t) (dsec - 1) * 1000000000 + (nsec + 1000000000)
  else
    addSec (Time.sec t) dsec * 1000000000 + nsec

/-- Whether `t` is strictly later than `u` (`t.After(u)`): later seconds, or the
same seconds and later nanoseconds. -/
def Time.After (t u : Time) : Bool :=
  decide (Time.sec t > Time.sec u) ||
    (decide (Time.sec t = Time.sec u) && decide (Time.nsec t > Time.nsec u))

/-- Per-user record: the stored request times (`type UserLimit struct`). -/
structure UserLimit where
  requestTimes : List Time
deriving DecidableEq, Repr

/-- The limiter state (`type RateLimiter struct`), without the mutex. -/
structure RateLimiter where
  users : Finmap (fun _ : String => UserLimit)
  limit : Int
  window : Duration
deriving DecidableEq

/-- A limiter with an empty registry; both parameters are stored as given. -/
def NewRateLimiter (limit : Int) (window : Duration) : RateLimiter :=
  { users := ∅, limit := limit, window := window }

/-- One call of `IsRequestAllowed`: the limiter after the call and the returned
boolean. The branches follow the source in order: absent key, pruning loop,
empty after pruning (delete and re-insert), limit reached, append. -/
def IsRequestAllowed (r : RateLimiter) (userID : String) (now : Time) : RateLimiter × Bool :=
  match r.users.lookup userID with
  | none => ({ r with users := r.users.insert userID ⟨[now]⟩ }, true)
  | some user =>
    let cutoff := Time.Add now (Duration.neg r.window)
    let newTimes := user.requestTimes.filter (fun t => Time.After t cutoff)
    let users1 := r.users.insert userID ⟨newTimes⟩
    if newTimes.length = 0 then
      ({ r with users := (users1.erase userID).insert userID ⟨[now]⟩ }, true)
    else if (newTimes.length : Int) ≥ r.limit then
      ({ r with users := users1 }, false)
    else
      ({ r with users := users1.insert userID ⟨newTimes ++ [now]⟩ }, true)

/-- A call: the user id and the timestamp passed to `IsRequestAllowed`. -/
abbrev Call := String × Time

/-- Serial execution of a list of calls from the state `r`: the final state and
the booleans returned, in call order. -/
def runCalls (r : RateLimiter) : List Call → RateLimiter × List Bool
  | [] => (r, [])
  | c :: rest =>
    let step := IsRequestAllowed r c.1 c.2
    let tail := runCalls step.1 rest
    (tail.1, step.2 :: tail.2)

/-- The state after the calls. -/
def finalState (r : RateLimiter) (calls : List Call) : RateLimiter := (runCalls r calls).1

/-- The booleans returned to the calls. -/
def results (r : RateLimiter) (calls : List Call) : List Bool := (runCalls r calls).2

/-- The log of a run: every call paired with the boolean it returned. -/
def trace (r : RateLimiter) (calls : List Call) : List (Call × Bool) :=
  calls.zip (results r calls)

/-- Timestamps of the logged calls for `k` that returned `true`, in call order. -/
def admittedFor (k : String) (log : List (Call × Bool)) : List Time :=
  (log.filter (fun e => decide (e.1.1 = k) && e.2)).map (fun e => e.1.2)

/-- The stored timestamp sequence of `k`; empty when `k` is not in the registry. -/
def storedTimes (r : RateLimiter) (k : String) : List Time :=
  match r.users.lookup k with
  | none => []
  | some u => u.requestTimes

/-- The cutoff the code computes for a call at `now`: `now.Add(-window)`. -/
def cutoffAt (window : Duration) (now : Time) : Time := Time.Add now (Duration.neg window)

/-- The pruning loop of the code: the timestamps of `ts` after the computed
cutoff. -/
def pruned (window : Duration) (now : Time) (ts : List Time) : List Time :=
  ts.filter (fun t => Time.After t (cutoffAt window now))

/-- The timestamps of `ts` strictly after `now - window` on the timeline. -/
def liveAt (window : Duration) (now : Time) (ts : List Time) : List Time :=
  ts.filter (fun t => decide (now - window < t))

/-- The computed cutoff is the instant `now - window`: neither the negation of
the window nor the addition overflowed. -/
def CutoffExact (window : Duration) (now : Time) : Prop :=
  cutoffAt window now = now - window

instance (window : Duration) (now : Time) : Decidable (CutoffExact window now) := by
  unfold CutoffExact; infer_instance

/-- The timestamps of the calls for `k` are non-decreasing in call order. -/
def MonotoneFor (k : String) (calls : List Call) : Prop :=
  calls.Pairwise (fun a b => a.1 = k → b.1 = k → a.2 ≤ b.2)

instance (k : String) (calls : List Call) : Decidable (MonotoneFor k calls) := by
  unfold MonotoneFor; infer_instance

/-- For each key, the timestamps of its calls are non-decreasing in call order. -/
def PerKeyMonotone (calls : List Call) : Prop :=
  calls.Pairwise (fun a b => a.1 = b.1 → a.2 ≤ b.2)

instance (calls : List Call) : Decidable (PerKeyMonotone calls) := by
  unfold PerKeyMonotone; infer_instance

/-- Two-branch reference decision, as the specification words it: `filtered` is
the stored timestamps of the key strictly after `now - window` (none when the
key is absent); with at least `limit` of them, store `filtered` and return
`false`; otherwise store `filtered` followed by `now` and return `true`. -/
def IsRequestAllowedRef (r : RateLimiter) (userID : String) (now : Time) : RateLimiter × Bool :=
  let filtered := (storedTimes r userID).filter (fun t => decide (now - r.window < t))
  if (filtered.length : Int) ≥ r.limit then
    ({ r with users := r.users.insert userID ⟨filtered⟩ }, false)
  else
    ({ r with users := r.users.insert userID ⟨filtered ++ [now]⟩ }, true)

/-- The calls with `d` added to every timestamp. -/
def shiftCalls (d : Duration) (calls : List Call) : List Call :=
  calls.map (fun c => (c.1, c.2 + d))

/-- The record with `d` added to every stored timestamp. -/
def UserLimit.shift (d : Duration) (u : UserLimit) : UserLimit :=
  ⟨u.requestTimes.map (fun t => t + d)⟩

/-- One second, in nanoseconds (`time.Second`). -/
def second : Duration := 1000000000

/-- The earliest instant `Time.Add` can return: second `-(2^63 - 1)`,
nanosecond 0. -/
def firstInstant : Time := -9223372036854775807000000000

/-- The minimum duration, `-2^63` nanoseconds. -/
def minDuration : Duration := -9223372036854775808

/-- A sample run: four calls for `user1` with a call for `user2` in between. -/
def sampleCalls : List Call :=
  [("user1", 0), ("user2", 5), ("user1", 1), ("user1", 2), ("user1", 3)]

/-- A sample run that fills the window of `user1` under limit 3. -/
def sampleBurst : List Call := [("user1", 0), ("user1", 1), ("user1", 2)]

/-- A run in which only the timestamps of `user2` go back in time. -/
def mixedCalls : List Call :=
  [("user1", 0), ("user2", 50), ("user1", 1), ("user2", 5), ("user1", 2), ("user1", 3)]

/-- A run with a timestamp going back in time: the call at 70 s prunes the three
admitted timestamps, then 5 s is passed. -/
def backwardCalls : List Call :=
  [("a", 0), ("a", 1 * second), ("a", 2 * second), ("a", 70 * second), ("a", 5 * second)]

/-- Two calls for the same key at the earliest instant. -/
def firstInstantCalls : List Call := [("u", firstInstant), ("u", firstInstant)]

/-- The state after one call for `u` at the earliest instant, under limit 1 and a
window of 60 s. -/
def firstInstantState : RateLimiter :=
  finalState (NewRateLimiter 1 (60 * second)) [("u", firstInstant)]

/-- The state after one call for `u` at instant 0, under limit 1 and the minimum
duration as window. -/
def minWindowState : RateLimiter := finalState (NewRateLimiter 1 minDuration) [("u", 0)]

/-- The state after one call for `u` at instant 0, under limit 0 and the minimum
duration as window. -/
def minWindowZeroLimitState : RateLimiter :=
  finalState (NewRateLimiter 0 minDuration) [("u", 0)]

/-- Two calls for the same key 100 s after the earliest instant. -/
def nearFirstCalls : List Call :=
  [("u", firstInstant + 100 * second), ("u", firstInstant + 100 * second)]

/-! ## Time arithmetic -/

theorem wrapInt64_of_range {x : Int} (h1 : -9223372036854775808 ≤ x)
    (h2 : x ≤ 9223372036854775807) : wrapInt64 x = x := by
  unfold wrapInt64; omega

/-- The negation is exact for every 64-bit duration except the minimum. -/
theorem neg_exact {d : Int} (h1 : -9223372036854775808 < d)
    (h2 : d ≤ 9223372036854775807) : Duration.neg d = -d := by
  unfold Duration.neg
  exact wrapInt64_of_range (by omega) (by omega)

/-- `Time.After` is the strict order of the timeline. -/
theorem after_iff (t u : Int) : Time.After t u = decide (u < t) := by
  unfold Time.After Time.sec Time.nsec
  rw [Bool.eq_iff_iff]
  simp only [Bool.or_eq_true, Bool.and_eq_true, decide_eq_true_eq]
  omega

/-- Truncated division by `10^9`: quotient, remainder and the sign of the
remainder. -/
theorem tdiv_tmod_spec (d : Int) :
    1000000000 * Int.tdiv d 1000000000 + Int.tmod d 1000000000 = d ∧
    -1000000000 < Int.tmod d 1000000000 ∧ Int.tmod d 1000000000 < 1000000000 ∧
    (0 ≤ d → 0 ≤ Int.tmod d 1000000000) ∧ (d ≤ 0 → Int.tmod d 1000000000 ≤ 0) := by
  have hsum := Int.tdiv_add_tmod d 1000000000
  by_cases hd : 0 ≤ d
  · have hm : Int.tmod d 1000000000 = d % 1000000000 := Int.tmod_eq_emod hd (by omega)
    refine ⟨hsum, ?_, ?_, ?_, ?_⟩ <;> omega
  · have hp : 0 ≤ -d := by omega
    have hq : Int.tdiv d 1000000000 = -((-d) / 1000000000) := by
      have h1 : Int.tdiv (-(-d)) 1000000000 = -(Int.tdiv (-d) 1000000000) :=
        Int.neg_tdiv (-d) 1000000000
      rw [Int.neg_neg] at h1
      rw [h1, Int.tdiv_eq_ediv hp (by omega)]
    refine ⟨hsum, ?_, ?_, ?_, ?_⟩ <;> omega

/-- The seconds are added exactly when the sum is a 64-bit value. -/
theorem addSec_exact (ext d : Int) (h1 : -9223372036854775808 ≤ ext + d)
    (h2 : ext + d ≤ 9223372036854775807) : addSec ext d = ext + d := by
  unfold addSec
  simp only [wrapInt64_of_range h1 h2]
  have hiff : (ext + d > ext ↔ d > 0) := by constructor <;> intro h <;> omega
  rw [if_pos hiff]

/-- Moving 64-bit seconds back by at most `2^63` seconds never gives less than
the exact sum: on overflow the seconds saturate at `-(2^63 - 1)`. -/
theorem addSec_ge (ext d : Int) (he1 : -9223372036854775808 ≤ ext)
    (he2 : ext ≤ 9223372036854775807) (hd1 : -9223372036854775808 ≤ d) (hd2 : d ≤ 0) :
    ext + d ≤ addSec ext d := by
  by_cases h : -9223372036854775808 ≤ ext + d
  · rw [addSec_exact ext d h (by omega)]
  · have hw : wrapInt64 (ext + d) = ext + d + 18446744073709551616 := by
      unfold wrapInt64; omega
    unfold addSec
    simp only [hw]
    have hiff : ¬ (ext + d + 18446744073709551616 > ext ↔ d > 0) := by
      intro hc
      have := hc.mp (by omega)
      omega
    rw [if_neg hiff, if_neg (by omega)]
    omega

/-- The three branches of `Time.Add` in one statement: the seconds move by some
`dsec`, the nanoseconds become `nsec`, and on the timeline the two account for
exactly `d`. -/
theorem add_decomp (t d : Int) :
    ∃ dsec nsec : Int, 0 ≤ nsec ∧ nsec < 1000000000 ∧
      t + d = (t / 1000000000 + dsec) * 1000000000 + nsec ∧
      Time.Add t d = addSec (t / 1000000000) dsec * 1000000000 + nsec := by
  obtain ⟨hsum, hlo, hhi, _, _⟩ := tdiv_tmod_spec d
  unfold Time.Add Time.sec Time.nsec
  simp only []
  split_ifs with h1 h2
  · exact ⟨Int.tdiv d 1000000000 + 1, t % 1000000000 + Int.tmod d 1000000000 - 1000000000,
      by omega, by omega, by omega, rfl⟩
  · exact ⟨Int.tdiv d 1000000000 - 1, t % 1000000000 + Int.tmod d 1000000000 + 1000000000,
      by omega, by omega, by omega, rfl⟩
  · exact ⟨Int.tdiv d 1000000000, t % 1000000000 + Int.tmod d 1000000000,
      by omega, by omega, by omega, rfl⟩

/-- Moving an instant is exact when the result is representable. -/
theorem add_exact (t d : Int) (h : Time.InRange (t + d)) :
    Time.Add t d = t + d := by
  obtain ⟨dsec, nsec, h0, h1, hsum, hadd⟩ := add_decomp t d
  have hdiv : (t + d) / 1000000000 = t / 1000000000 + dsec :=
    ((Int.ediv_emod_unique (by decide)).mpr ⟨by omega, h0, h1⟩).1
  unfold Time.InRange Time.sec at h
  rw [hdiv] at h
  rw [hadd, addSec_exact _ _ h.1 h.2]
  exact hsum.symm

/-- The computed cutoff is `now - window` when the window is a 64-bit duration
other than the minimum and `now - window` is representable. -/
theorem cutoffExact_of_inRange {window now : Int}
    (h1 : -9223372036854775808 < window) (h2 : window ≤ 9223372036854775807)
    (h : Time.InRange (now - window)) : CutoffExact window now := by
  unfold CutoffExact cutoffAt
  rw [neg_exact h1 h2, add_exact now (-window) (by rw [← Int.sub_eq_add_neg]; exact h)]
  exact Int.sub_eq_add_neg.symm

/-- With a positive 64-bit window and a representable `now`, the computed cutoff
is not earlier than `now - window`: the addition can only saturate upwards. -/
theorem cutoff_ge_of_pos {window now : Int} (hw : 0 < window)
    (h2 : window ≤ 9223372036854775807) (hn : Time.InRange now) :
    now - window ≤ cutoffAt window now := by
  unfold cutoffAt
  rw [neg_exact (by omega) h2]
  obtain ⟨dsec, nsec, h0, h1, hsum, hadd⟩ := add_decomp now (-window)
  unfold Time.InRange Time.sec at hn
  have hd2 : dsec ≤ 0 := by omega
  have hd1 : -9223372036854775808 ≤ dsec := by omega
  have hge := addSec_ge (now / 1000000000) dsec hn.1 hn.2 hd1 hd2
  rw [hadd]
  omega

/-! ## One call -/

theorem prune_eq (window : Duration) (now : Time) (ts : List Time) :
    ts.filter (fun t => Time.After t (Time.Add now (Duration.neg window))) =
      pruned window now ts := rfl

theorem storedTimes_of_lookup {r : RateLimiter} {k : String} {u : UserLimit}
    (h : r.users.lookup k = some u) : storedTimes r k = u.requestTimes := by
  simp [storedTimes, h]

theorem storedTimes_of_absent {r : RateLimiter} {k : String}
    (h : r.users.lookup k = none) : storedTimes r k = [] := by
  simp [storedTimes, h]

/-- The returned boolean in terms of the pruned sequence. -/
theorem allowed_eq (r : RateLimiter) (k : String) (now : Time) :
    (IsRequestAllowed r k now).2 =
      decide (pruned r.window now (storedTimes r k) = [] ∨
        ((pruned r.window now (storedTimes r k)).length : Int) < r.limit) := by
  unfold IsRequestAllowed
  cases h : r.users.lookup k with
  | none => simp [storedTimes_of_absent h, pruned]
  | some u =>
    simp only [prune_eq, storedTimes_of_lookup h]
    by_cases h0 : (pruned r.window now u.requestTimes).length = 0
    · simp [h0, List.length_eq_zero.mp h0]
    · have hne : pruned r.window now u.requestTimes ≠ [] := fun hc => h0 (by simp [hc])
      by_cases h1 : ((pruned r.window now u.requestTimes).length : Int) ≥ r.limit
      · simp [h0, h1, hne]
      · simp [h0, h1, hne]
        omega

/-- The entry of the called key after the call. -/
theorem lookup_self (r : RateLimiter) (k : String) (now : Time) :
    (IsRequestAllowed r k now).1.users.lookup k =
      some ⟨pruned r.window now (storedTimes r k) ++
        (if (IsRequestAllowed r k now).2 then [now] else [])⟩ := by
  unfold IsRequestAllowed
  cases h : r.users.lookup k with
  | none => simp [storedTimes_of_absent h, pruned, Finmap.lookup_insert]
  | some u =>
    simp only [prune_eq, storedTimes_of_lookup h]
    by_cases h0 : (pruned r.window now u.requestTimes).length = 0
    · simp [h0, List.length_eq_zero.mp h0, Finmap.lookup_insert]
    · by_cases h1 : ((pruned r.window now u.requestTimes).length : Int) ≥ r.limit
      · simp [h0, h1, Finmap.lookup_insert]
      · simp [h0, h1, Finmap.lookup_insert]

/-- The entries of the other keys are not touched. -/
theorem lookup_other (r : RateLimiter) (k : String) (now : Time) {k2 : String} (hk : k2 ≠ k) :
    (IsRequestAllowed r k now).1.users.lookup k2 = r.users.lookup k2 := by
  unfold IsRequestAllowed
  cases h : r.users.lookup k with
  | none => simp [Finmap.lookup_insert_of_ne _ hk]
  | some u =>
    simp only [prune_eq]
    by_cases h0 : (pruned r.window now u.requestTimes).length = 0
    · simp [h0, Finmap.lookup_insert_of_ne _ hk, Finmap.lookup_erase_ne hk]
    · by_cases h1 : ((pruned r.window now u.requestTimes).length : Int) ≥ r.limit
      · simp [h0, h1, Finmap.lookup_insert_of_ne _ hk]
      · simp [h0, h1, Finmap.lookup_insert_of_ne _ hk]

theorem limit_step (r : RateLimiter) (k : String) (now : Time) :
    (IsRequestAllowed r k now).1.limit = r.limit := by
  unfold IsRequestAllowed
  cases r.users.lookup k with
  | none => rfl
  | some u => simp only []; split_ifs <;> rfl

theorem window_step (r : RateLimiter) (k : String) (now : Time) :
    (IsRequestAllowed r k now).1.window = r.window := by
  unfold IsRequestAllowed
  cases r.users.lookup k with
  | none => rfl
  | some u => simp only []; split_ifs <;> rfl

theorem storedTimes_self (r : RateLimiter) (k : String) (now : Time) :
    storedTimes (IsRequestAllowed r k now).1 k =
      pruned r.window now (storedTimes r k) ++
        (if (IsRequestAllowed r k now).2 then [now] else []) :=
  storedTimes_of_lookup (lookup_self r k now)

theorem storedTimes_other (r : RateLimiter) (k : String) (now : Time) {k2 : String}
    (hk : k2 ≠ k) : storedTimes (IsRequestAllowed r k now).1 k2 = storedTimes r k2 := by
  simp [storedTimes, lookup_other r k now hk]

/-- The key set after a call is the old key set with the called key added. -/
theorem keys_step (r : RateLimiter) (k : String) (now : Time) :
    (IsRequestAllowed r k now).1.users.keys = insert k r.users.keys := by
  ext k2
  rw [Finset.mem_insert, Finmap.mem_keys, Finmap.mem_keys,
    ← Finmap.lookup_isSome, ← Finmap.lookup_isSome]
  by_cases hk : k2 = k
  · subst hk
    simp [lookup_self]
  · rw [lookup_other r k now hk]
    simp [hk]

theorem RateLimiter.ext_fields {a b : RateLimiter} (hu : a.users = b.users)
    (hl : a.limit = b.limit) (hw : a.window = b.window) : a = b := by
  cases a; cases b; simp_all

theorem pruned_sublist (w : Duration) (now : Time) (ts : List Time) :
    (pruned w now ts).Sublist ts := by
  unfold pruned; exact List.filter_sublist ts

theorem pruned_length_le (w : Duration) (now : Time) (ts : List Time) :
    (pruned w now ts).length ≤ ts.length :=
  (pruned_sublist w now ts).length_le

theorem pruned_append (w : Duration) (now : Time) (xs ys : List Time) :
    pruned w now (xs ++ ys) = pruned w now xs ++ pruned w now ys := by
  simp [pruned]

/-! ## Runs -/

theorem finalState_nil (r : RateLimiter) : finalState r [] = r := rfl

theorem finalState_cons (r : RateLimiter) (c : Call) (rest : List Call) :
    finalState r (c :: rest) = finalState (IsRequestAllowed r c.1 c.2).1 rest := rfl

theorem results_nil (r : RateLimiter) : results r [] = [] := rfl

theorem results_cons (r : RateLimiter) (c : Call) (rest : List Call) :
    results r (c :: rest) =
      (IsRequestAllowed r c.1 c.2).2 :: results (IsRequestAllowed r c.1 c.2).1 rest := rfl

theorem trace_nil (r : RateLimiter) : trace r [] = [] := rfl

theorem trace_cons (r : RateLimiter) (c : Call) (rest : List Call) :
    trace r (c :: rest) =
      (c, (IsRequestAllowed r c.1 c.2).2) :: trace (IsRequestAllowed r c.1 c.2).1 rest := by
  simp [trace, results_cons]

theorem results_length (r : RateLimiter) (calls : List Call) :
    (results r calls).length = calls.length := by
  induction calls generalizing r with
  | nil => rfl
  | cons c rest ih => simp [results_cons, ih]

theorem finalState_append (r : RateLimiter) (xs ys : List Call) :
    finalState r (xs ++ ys) = finalState (finalState r xs) ys := by
  induction xs generalizing r with
  | nil => rfl
  | cons c rest ih => simp [finalState_cons, ih]

theorem finalState_snoc (r : RateLimiter) (xs : List Call) (c : Call) :
    finalState r (xs ++ [c]) = (IsRequestAllowed (finalState r xs) c.1 c.2).1 := by
  rw [finalState_append]; rfl

theorem trace_append (r : RateLimiter) (xs ys : List Call) :
    trace r (xs ++ ys) = trace r xs ++ trace (finalState r xs) ys := by
  induction xs generalizing r with
  | nil => rfl
  | cons c rest ih => simp [trace_cons, finalState_cons, ih]

theorem trace_snoc (r : RateLimiter) (xs : List Call) (c : Call) :
    trace r (xs ++ [c]) =
      trace r xs ++ [(c, (IsRequestAllowed (finalState r xs) c.1 c.2).2)] := by
  rw [trace_append, trace_cons, trace_nil]

theorem trace_take (r : RateLimiter) (calls : List Call) (n : Nat) :
    (trace r calls).take n = trace r (calls.take n) := by
  induction calls generalizing r n with
  | nil => simp [trace_nil]
  | cons c rest ih =>
    cases n with
    | zero => simp [trace_nil]
    | succ m => simp [trace_cons, ih]

/-- The boolean returned to the call at position `n` is the one-call result in
the state reached by the calls before it. -/
theorem results_getElem? (r : RateLimiter) (calls : List Call) (n : Nat) (c : Call)
    (h : calls[n]? = some c) :
    (results r calls)[n]? =
      some (IsRequestAllowed (finalState r (calls.take n)) c.1 c.2).2 := by
  induction calls generalizing r n with
  | nil => simp at h
  | cons c0 rest ih =>
    cases n with
    | zero =>
      simp at h
      subst h
      simp [results_cons, finalState_nil]
    | succ m =>
      simp at h
      simp [results_cons, finalState_cons, ih _ m h]

theorem limit_finalState (r : RateLimiter) (calls : List Call) :
    (finalState r calls).limit = r.limit := by
  induction calls generalizing r with
  | nil => rfl
  | cons c rest ih => rw [finalState_cons, ih, limit_step]

theorem window_finalState (r : RateLimiter) (calls : List Call) :
    (finalState r calls).window = r.window := by
  induction calls generalizing r with
  | nil => rfl
  | cons c rest ih => rw [finalState_cons, ih, window_step]

theorem admittedFor_append (k : String) (xs ys : List (Call × Bool)) :
    admittedFor k (xs ++ ys) = admittedFor k xs ++ admittedFor k ys := by
  simp [admittedFor]

theorem admittedFor_single (k : String) (c : Call) (b : Bool) :
    admittedFor k [(c, b)] = if c.1 = k ∧ b = true then [c.2] else [] := by
  by_cases h1 : c.1 = k <;> cases b <;> simp [admittedFor, h1]

/-! ## Invariants of the states reached from a fresh limiter -/

/-- Every entry of the registry is non-empty and holds at most `max limit 1`
timestamps. -/
def Good (r : RateLimiter) : Prop :=
  ∀ k u, r.users.lookup k = some u →
    1 ≤ u.requestTimes.length ∧ (u.requestTimes.length : Int) ≤ max r.limit 1

theorem good_new (limit : Int) (window : Duration) : Good (NewRateLimiter limit window) := by
  intro k u h
  simp [NewRateLimiter, Finmap.lookup_empty] at h

theorem good_step (r : RateLimiter) (k : String) (now : Time) (h : Good r) :
    Good (IsRequestAllowed r k now).1 := by
  intro k2 u hu
  rw [limit_step]
  by_cases hk : k2 = k
  · subst hk
    rw [lookup_self] at hu
    have hb := allowed_eq r k2 now
    injection hu with hu
    subst hu
    cases hres : (IsRequestAllowed r k2 now).2 with
    | true =>
      rw [hres] at hb
      have hb2 := of_decide_eq_true hb.symm
      simp only [if_true, List.length_append, List.length_singleton]
      rcases hb2 with h0 | h1
      · rw [h0]
        simp
      · constructor
        · omega
        · have : ((pruned r.window now (storedTimes r k2)).length : Int) + 1 ≤ r.limit := by omega
          push_cast
          exact le_trans this (le_max_left _ _)
    | false =>
      rw [hres] at hb
      have hb2 := of_decide_eq_false hb.symm
      push_neg at hb2
      obtain ⟨hne, hlim⟩ := hb2
      simp only [Bool.false_eq_true, if_false, List.append_nil]
      have hpos : 1 ≤ (pruned r.window now (storedTimes r k2)).length :=
        List.length_pos.mpr hne
      refine ⟨hpos, ?_⟩
      cases hl : r.users.lookup k2 with
      | none =>
        rw [storedTimes_of_absent hl] at hne
        exact absurd rfl hne
      | some u0 =>
        have hle := pruned_length_le r.window now (storedTimes r k2)
        rw [storedTimes_of_lookup hl] at hle ⊢
        have := (h k2 u0 hl).2
        have hcast : ((pruned r.window now u0.requestTimes).length : Int)
            ≤ (u0.requestTimes.length : Int) := by exact_mod_cast hle
        exact le_trans hcast this
  · rw [lookup_other r k now hk] at hu
    exact h k2 u hu

theorem good_finalState (r : RateLimiter) (calls : List Call) (h : Good r) :
    Good (finalState r calls) := by
  induction calls generalizing r with
  | nil => exact h
  | cons c rest ih =>
    rw [finalState_cons]
    exact ih _ (good_step r c.1 c.2 h)

/-- In a good state a denied call changes nothing. -/
theorem denied_noop (r : RateLimiter) (k : String) (now : Time) (h : Good r)
    (hd : (IsRequestAllowed r k now).2 = false) : (IsRequestAllowed r k now).1 = r := by
  have hb := allowed_eq r k now
  rw [hd] at hb
  have hb2 := of_decide_eq_false hb.symm
  push_neg at hb2
  obtain ⟨hne, hlim⟩ := hb2
  apply RateLimiter.ext_fields _ (limit_step r k now) (window_step r k now)
  apply Finmap.ext_lookup
  intro k2
  by_cases hk : k2 = k
  · subst hk
    rw [lookup_self, hd]
    simp only [Bool.false_eq_true, if_false, List.append_nil]
    cases hl : r.users.lookup k2 with
    | none =>
      rw [storedTimes_of_absent hl] at hne
      exact absurd rfl hne
    | some u0 =>
      rw [storedTimes_of_lookup hl] at hne hlim ⊢
      have hsub := pruned_sublist r.window now u0.requestTimes
      have hpos : 1 ≤ (pruned r.window now u0.requestTimes).length :=
        List.length_pos.mpr hne
      have hmax := (h k2 u0 hl).2
      have hlen : u0.requestTimes.length ≤ (pruned r.window now u0.requestTimes).length := by
        rcases le_max_iff.mp (le_refl (max r.limit 1)) with h1 | h1
        · have : (u0.requestTimes.length : Int) ≤ r.limit := le_trans hmax h1
          omega
        · have : (u0.requestTimes.length : Int) ≤ 1 := le_trans hmax h1
          omega
      rw [hsub.eq_of_length_le hlen]
  · exact lookup_other r k now hk

/-- The timestamps admitted for `k` are timestamps of calls for `k`. -/
theorem admittedFor_mem (r : RateLimiter) (k : String) (calls : List Call) (t : Time)
    (h : t ∈ admittedFor k (trace r calls)) : ∃ c ∈ calls, c.1 = k ∧ c.2 = t := by
  simp only [admittedFor, List.mem_map, List.mem_filter, Bool.and_eq_true,
    decide_eq_true_eq] at h
  obtain ⟨e, ⟨hmem, hk, _⟩, ht⟩ := h
  refine ⟨e.1, ?_, hk, ht⟩
  have : (e.1, e.2) ∈ calls.zip (results r calls) := by simpa [trace] using hmem
  exact (List.of_mem_zip this).1

theorem monotoneFor_snoc {k : String} {xs : List Call} {c : Call}
    (h : MonotoneFor k (xs ++ [c])) :
    MonotoneFor k xs ∧ ∀ a ∈ xs, a.1 = k → c.1 = k → a.2 ≤ c.2 := by
  unfold MonotoneFor at h ⊢
  rw [List.pairwise_append] at h
  exact ⟨h.1, fun a ha => h.2.2 a ha c (by simp)⟩

/-- In a state reached from a fresh limiter with `limit ≥ 1` no entry holds more
than `limit` timestamps. -/
theorem stored_length_le (limit : Int) (window : Duration) (hl : 1 ≤ limit)
    (calls : List Call) (k : String) :
    ((storedTimes (finalState (NewRateLimiter limit window) calls) k).length : Int) ≤ limit := by
  have hg := good_finalState _ calls (good_new limit window)
  cases hlk : (finalState (NewRateLimiter limit window) calls).users.lookup k with
  | none =>
    rw [storedTimes_of_absent hlk]
    simp only [List.length_nil, Nat.cast_zero]
    omega
  | some u =>
    rw [storedTimes_of_lookup hlk]
    have h2 := (hg k u hlk).2
    rw [limit_finalState] at h2
    have hlim : (NewRateLimiter limit window).limit = limit := rfl
    rw [hlim, max_eq_left hl] at h2
    exact h2

/-- With `limit ≥ 1` the returned boolean says whether fewer than `limit` stored
timestamps are live. -/
theorem allowed_eq_of_pos (r : RateLimiter) (k : String) (now : Time) (hl : 1 ≤ r.limit) :
    (IsRequestAllowed r k now).2 =
      decide (((pruned r.window now (storedTimes r k)).length : Int) < r.limit) := by
  rw [allowed_eq]
  apply decide_eq_decide.mpr
  constructor
  · rintro (h0 | h1)
    · rw [h0]
      simp only [List.length_nil, Nat.cast_zero]
      omega
    · exact h1
  · exact fun h => Or.inr h

/-- The decisions for `k` depend only on the entry of `k` and on the policy. -/
theorem results_filter_key (k : String) (calls : List Call) (r1 r2 : RateLimiter)
    (hu : r1.users.lookup k = r2.users.lookup k) (hl : r1.limit = r2.limit)
    (hw : r1.window = r2.window) :
    ((trace r1 calls).filter (fun e => decide (e.1.1 = k))).map (fun e => e.2) =
      results r2 (calls.filter (fun c => decide (c.1 = k))) := by
  induction calls generalizing r1 r2 with
  | nil => rfl
  | cons c rest ih =>
    rw [trace_cons]
    by_cases hk : c.1 = k
    · subst hk
      have hs : storedTimes r1 c.1 = storedTimes r2 c.1 := by
        simp [storedTimes, hu]
      have hb : (IsRequestAllowed r1 c.1 c.2).2 = (IsRequestAllowed r2 c.1 c.2).2 := by
        rw [allowed_eq, allowed_eq, hs, hl, hw]
      have hnext : (IsRequestAllowed r1 c.1 c.2).1.users.lookup c.1 =
          (IsRequestAllowed r2 c.1 c.2).1.users.lookup c.1 := by
        rw [lookup_self, lookup_self, hs, hb, hw]
      have := ih (IsRequestAllowed r1 c.1 c.2).1 (IsRequestAllowed r2 c.1 c.2).1 hnext
        (by rw [limit_step, limit_step, hl]) (by rw [window_step, window_step, hw])
      simp [results_cons, this, hb]
    · have hk2 : k ≠ c.1 := fun h => hk h.symm
      have := ih (IsRequestAllowed r1 c.1 c.2).1 r2
        (by rw [lookup_other r1 c.1 c.2 hk2, hu]) (by rw [limit_step, hl])
        (by rw [window_step, hw])
      simp [hk, this]


/-! ## Stored timestamps and admitted calls -/

/-- The stored sequence of `k` is a subsequence of the timestamps admitted for
`k`, whatever the keys and timestamps of the calls. -/
theorem stored_sublist_admitted (limit : Int) (window : Duration) (calls : List Call)
    (k : String) :
    (storedTimes (finalState (NewRateLimiter limit window) calls) k).Sublist
      (admittedFor k (trace (NewRateLimiter limit window) calls)) := by
  induction calls using List.reverseRecOn with
  | nil => simp [finalState_nil, storedTimes, NewRateLimiter, Finmap.lookup_empty]
  | append_singleton xs c ih =>
    rw [finalState_snoc, trace_snoc, admittedFor_append, admittedFor_single]
    by_cases hk : c.1 = k
    · subst hk
      rw [storedTimes_self]
      apply List.Sublist.append ((pruned_sublist _ _ _).trans ih)
      cases (IsRequestAllowed (finalState (NewRateLimiter limit window) xs) c.1 c.2).2 <;> simp
    · have hk2 : k ≠ c.1 := fun h => hk h.symm
      rw [storedTimes_other _ _ _ hk2]
      simpa [hk] using ih

/-- Under non-decreasing timestamps for `k` the admitted timestamps of `k` are
in ascending order. -/
theorem admitted_pairwise (r : RateLimiter) (k : String) (calls : List Call)
    (hm : MonotoneFor k calls) :
    (admittedFor k (trace r calls)).Pairwise (fun a b => a ≤ b) := by
  induction calls using List.reverseRecOn with
  | nil => simp [trace_nil, admittedFor]
  | append_singleton xs c ih =>
    obtain ⟨hmx, hlast⟩ := monotoneFor_snoc hm
    rw [trace_snoc, admittedFor_append, admittedFor_single, List.pairwise_append]
    refine ⟨ih hmx, ?_, ?_⟩
    · split_ifs <;> simp
    · intro a ha b hb
      split_ifs at hb with hc
      · simp only [List.mem_singleton] at hb
        obtain ⟨c2, hc2, hk2, ht2⟩ := admittedFor_mem _ _ _ _ ha
        rw [hb, ← ht2]
        exact hlast c2 hc2 hk2 hc.1
      · simp at hb

/-! ## Pruning and the window on the timeline -/

theorem liveAt_sublist (w : Duration) (now : Time) (ts : List Time) :
    (liveAt w now ts).Sublist ts := by
  unfold liveAt; exact List.filter_sublist ts

theorem liveAt_length_le (w : Duration) (now : Time) (ts : List Time) :
    (liveAt w now ts).length ≤ ts.length :=
  (liveAt_sublist w now ts).length_le

theorem liveAt_append (w : Duration) (now : Time) (xs ys : List Time) :
    liveAt w now (xs ++ ys) = liveAt w now xs ++ liveAt w now ys := by
  simp [liveAt]

/-- Pruning at a later instant absorbs pruning at an earlier one. -/
theorem liveAt_liveAt (w : Duration) {t now : Time} (h : t ≤ now) (ts : List Time) :
    liveAt w now (liveAt w t ts) = liveAt w now ts := by
  unfold liveAt
  rw [List.filter_filter]
  apply List.filter_congr
  intro x _
  by_cases hx : now - w < x
  · have : t - w < x := by linarith
    simp [hx, this]
  · simp [hx]

/-- With an exact cutoff the pruning loop keeps exactly the timestamps strictly
after `now - window`. -/
theorem pruned_eq_liveAt {w : Duration} {now : Time} (h : CutoffExact w now)
    (ts : List Time) : pruned w now ts = liveAt w now ts := by
  unfold pruned liveAt
  unfold CutoffExact at h
  rw [h]
  apply List.filter_congr
  intro t _
  exact after_iff t (now - w)

/-- When the computed cutoff is not earlier than `now - window`, every kept
timestamp is strictly after `now - window`. -/
theorem pruned_live {w : Duration} {now : Time} (h : now - w ≤ cutoffAt w now)
    (ts : List Time) : ∀ t ∈ pruned w now ts, now - w < t := by
  intro t ht
  unfold pruned at ht
  have h2 := (List.mem_filter.mp ht).2
  rw [after_iff] at h2
  have h3 : cutoffAt w now < t := of_decide_eq_true h2
  exact lt_of_le_of_lt h h3

/-- When the computed cutoff is not earlier than `now - window`, timestamps that
are all at or before `now - window` are all pruned. -/
theorem pruned_eq_nil {w : Duration} {now : Time} (h : now - w ≤ cutoffAt w now)
    (ts : List Time) (hexp : ∀ t ∈ ts, t ≤ now - w) : pruned w now ts = [] := by
  unfold pruned
  rw [List.filter_eq_nil_iff]
  intro t ht
  rw [after_iff]
  have h1 := hexp t ht
  have h2 : ¬ cutoffAt w now < t := not_lt.mpr (le_trans h1 h)
  simpa using h2

/-- With exact cutoffs for the calls for `k`, pruning the stored sequence of `k`
at any instant not before its calls gives the admitted timestamps of `k` that
are live at that instant. -/
theorem live_invariant (limit : Int) (window : Duration) (k : String) (calls : List Call)
    (hex : ∀ c ∈ calls, c.1 = k → CutoffExact window c.2)
    (now : Time) (hnow : ∀ c ∈ calls, c.1 = k → c.2 ≤ now) :
    liveAt window now (storedTimes (finalState (NewRateLimiter limit window) calls) k) =
      liveAt window now (admittedFor k (trace (NewRateLimiter limit window) calls)) := by
  induction calls using List.reverseRecOn generalizing now with
  | nil => simp [finalState_nil, trace_nil, storedTimes, NewRateLimiter, admittedFor,
      Finmap.lookup_empty]
  | append_singleton xs c ih =>
    have hexx : ∀ a ∈ xs, a.1 = k → CutoffExact window a.2 :=
      fun a ha => hex a (by simp [ha])
    have hnowx : ∀ a ∈ xs, a.1 = k → a.2 ≤ now := fun a ha => hnow a (by simp [ha])
    rw [finalState_snoc, trace_snoc, admittedFor_append, liveAt_append, ← ih hexx now hnowx]
    by_cases hk : c.1 = k
    · have hc : c.2 ≤ now := hnow c (by simp) hk
      have hce : CutoffExact window c.2 := hex c (by simp) hk
      subst hk
      rw [storedTimes_self, liveAt_append, window_finalState, admittedFor_single]
      have hw : (NewRateLimiter limit window).window = window := rfl
      rw [hw, pruned_eq_liveAt hce, liveAt_liveAt window hc]
      simp
    · have hk2 : k ≠ c.1 := fun h => hk h.symm
      rw [storedTimes_other _ _ _ hk2, admittedFor_single]
      simp [hk, liveAt]

/-- Bounded admission away from the ends of the time range: with `limit ≥ 1`,
exact cutoffs for the calls for `k`, and no earlier call for `k` later than
`now`, right after a call for `k` at `now` at most `limit` admitted timestamps
of `k` lie in the window ending at `now`. -/
theorem admitted_window_le (limit : Int) (window : Duration) (hl : 1 ≤ limit)
    (k : String) (pre : List Call) (now : Time)
    (hex : ∀ c ∈ pre ++ [(k, now)], c.1 = k → CutoffExact window c.2)
    (hpre : ∀ c ∈ pre, c.1 = k → c.2 ≤ now) :
    (((admittedFor k (trace (NewRateLimiter limit window) (pre ++ [(k, now)]))).filter
      (fun t => decide (now - window < t ∧ t ≤ now))).length : Int) ≤ limit := by
  have hle : ∀ c ∈ pre ++ [(k, now)], c.1 = k → c.2 ≤ now := by
    intro c hc hck
    rw [List.mem_append] at hc
    rcases hc with hc | hc
    · exact hpre c hc hck
    · simp only [List.mem_singleton] at hc
      rw [hc]
  have hinv := live_invariant limit window k _ hex now hle
  have hfilter : (admittedFor k (trace (NewRateLimiter limit window)
        (pre ++ [(k, now)]))).filter (fun t => decide (now - window < t ∧ t ≤ now)) =
      liveAt window now (admittedFor k (trace (NewRateLimiter limit window)
        (pre ++ [(k, now)]))) := by
    unfold liveAt
    apply List.filter_congr
    intro t ht
    obtain ⟨c, hc, hck, hct⟩ := admittedFor_mem _ _ _ _ ht
    have := hle c hc hck
    rw [hct] at this
    simp [this]
  rw [hfilter, ← hinv]
  have h1 := liveAt_length_le window now
    (storedTimes (finalState (NewRateLimiter limit window) (pre ++ [(k, now)])) k)
  have h2 := stored_length_le limit window hl (pre ++ [(k, now)]) k
  have h3 : ((liveAt window now (storedTimes (finalState (NewRateLimiter limit window)
      (pre ++ [(k, now)])) k)).length : Int) ≤
      ((storedTimes (finalState (NewRateLimiter limit window)
      (pre ++ [(k, now)])) k).length : Int) := by exact_mod_cast h1
  exact le_trans h3 h2

/-! ## Translation in time -/

/-- When the cutoff of the moved call is the moved cutoff, pruning commutes with
moving the timestamps. -/
theorem pruned_shift (w d : Duration) (now : Time) (ts : List Time)
    (hc : cutoffAt w (now + d) = cutoffAt w now + d) :
    pruned w (now + d) (ts.map (fun t => t + d)) =
      (pruned w now ts).map (fun t => t + d) := by
  unfold pruned
  rw [List.filter_map, hc]
  congr 1
  apply List.filter_congr
  intro t _
  simp only [Function.comp, after_iff]
  apply decide_eq_decide.mpr
  constructor <;> intro h <;> linarith

theorem storedTimes_shift (d : Duration) (r r2 : RateLimiter) (k : String)
    (h : r2.users.lookup k = (r.users.lookup k).map (UserLimit.shift d)) :
    storedTimes r2 k = (storedTimes r k).map (fun t => t + d) := by
  unfold storedTimes
  rw [h]
  cases r.users.lookup k <;> simp [UserLimit.shift]

/-- One call on a state and the same call, moved by `d`, on the state moved by
`d`: same boolean, and the states after are again each other moved by `d`. -/
theorem step_shift (d : Duration) (r r2 : RateLimiter) (k : String) (now : Time)
    (hl : r2.limit = r.limit) (hw : r2.window = r.window)
    (hu : ∀ k2, r2.users.lookup k2 = (r.users.lookup k2).map (UserLimit.shift d))
    (hc : cutoffAt r.window (now + d) = cutoffAt r.window now + d) :
    (IsRequestAllowed r2 k (now + d)).2 = (IsRequestAllowed r k now).2 ∧
    ∀ k2, (IsRequestAllowed r2 k (now + d)).1.users.lookup k2 =
      ((IsRequestAllowed r k now).1.users.lookup k2).map (UserLimit.shift d) := by
  have hs := storedTimes_shift d r r2 k (hu k)
  have hlive : pruned r2.window (now + d) (storedTimes r2 k) =
      (pruned r.window now (storedTimes r k)).map (fun t => t + d) := by
    rw [hs, hw, pruned_shift _ _ _ _ hc]
  have hb : (IsRequestAllowed r2 k (now + d)).2 = (IsRequestAllowed r k now).2 := by
    rw [allowed_eq, allowed_eq, hlive, hl]
    simp
  refine ⟨hb, ?_⟩
  intro k2
  by_cases hk : k2 = k
  · subst hk
    rw [lookup_self, lookup_self, hlive, hb]
    cases (IsRequestAllowed r k2 now).2 <;> simp [UserLimit.shift]
  · rw [lookup_other _ _ _ hk, lookup_other _ _ _ hk]
    exact hu k2

theorem run_shift (d : Duration) (calls : List Call) (r r2 : RateLimiter)
    (hl : r2.limit = r.limit) (hw : r2.window = r.window)
    (hu : ∀ k2, r2.users.lookup k2 = (r.users.lookup k2).map (UserLimit.shift d))
    (hc : ∀ c ∈ calls, cutoffAt r.window (c.2 + d) = cutoffAt r.window c.2 + d) :
    results r2 (shiftCalls d calls) = results r calls ∧
    ∀ k2, (finalState r2 (shiftCalls d calls)).users.lookup k2 =
      ((finalState r calls).users.lookup k2).map (UserLimit.shift d) := by
  induction calls generalizing r r2 with
  | nil => exact ⟨rfl, hu⟩
  | cons c rest ih =>
    obtain ⟨hb, hnext⟩ := step_shift d r r2 c.1 c.2 hl hw hu (hc c (by simp))
    have := ih (IsRequestAllowed r c.1 c.2).1 (IsRequestAllowed r2 c.1 (c.2 + d)).1
      (by rw [limit_step, limit_step, hl]) (by rw [window_step, window_step, hw]) hnext
      (by rw [window_step]; exact fun c2 hc2 => hc c2 (by simp [hc2]))
    simp only [shiftCalls, List.map_cons, results_cons, finalState_cons] at this ⊢
    exact ⟨by rw [hb, this.1], this.2⟩

/-! ## The two-branch reference -/

theorem ref_allowed (r : RateLimiter) (k : String) (now : Time) :
    (IsRequestAllowedRef r k now).2 =
      decide (((liveAt r.window now (storedTimes r k)).length : Int) < r.limit) := by
  unfold IsRequestAllowedRef liveAt
  simp only []
  split_ifs with h
  · simp only [decide_eq_false_iff_not, not_lt, Bool.false_eq]
    exact h
  · simp only [decide_eq_true_eq, Bool.true_eq]
    exact lt_of_not_ge h

theorem ref_users (r : RateLimiter) (k : String) (now : Time) :
    (IsRequestAllowedRef r k now).1.users =
      r.users.insert k ⟨liveAt r.window now (storedTimes r k) ++
        (if (IsRequestAllowedRef r k now).2 then [now] else [])⟩ := by
  unfold IsRequestAllowedRef liveAt
  by_cases h : (((storedTimes r k).filter (fun t => decide (now - r.window < t))).length : Int)
      ≥ r.limit
  · simp [h]
  · simp [h]

theorem ref_limit (r : RateLimiter) (k : String) (now : Time) :
    (IsRequestAllowedRef r k now).1.limit = r.limit := by
  unfold IsRequestAllowedRef
  simp only []
  split_ifs <;> rfl

theorem ref_window (r : RateLimiter) (k : String) (now : Time) :
    (IsRequestAllowedRef r k now).1.window = r.window := by
  unfold IsRequestAllowedRef
  simp only []
  split_ifs <;> rfl

/-- Deleting a key and inserting it again is the same as overwriting its entry. -/
theorem erase_insert_eq (users : Finmap (fun _ : String => UserLimit)) (k : String)
    (old new : UserLimit) :
    ((users.insert k old).erase k).insert k new = users.insert k new := by
  apply Finmap.ext_lookup
  intro k2
  by_cases hk : k2 = k
  · subst hk
    rw [Finmap.lookup_insert, Finmap.lookup_insert]
  · rw [Finmap.lookup_insert_of_ne _ hk, Finmap.lookup_insert_of_ne _ hk,
      Finmap.lookup_erase_ne hk, Finmap.lookup_insert_of_ne _ hk]

/-- With `limit ≥ 1` and an exact cutoff the code and the two-branch reference
agree. -/
theorem allowed_eq_ref (r : RateLimiter) (k : String) (now : Time) (hl : 1 ≤ r.limit)
    (hex : CutoffExact r.window now) :
    IsRequestAllowed r k now = IsRequestAllowedRef r k now := by
  have hb : (IsRequestAllowed r k now).2 = (IsRequestAllowedRef r k now).2 := by
    rw [allowed_eq_of_pos r k now hl, ref_allowed, pruned_eq_liveAt hex]
  refine Prod.ext ?_ hb
  apply RateLimiter.ext_fields
  · apply Finmap.ext_lookup
    intro k2
    rw [ref_users]
    by_cases hk : k2 = k
    · subst hk
      rw [lookup_self, Finmap.lookup_insert, hb, pruned_eq_liveAt hex]
    · rw [lookup_other r k now hk, Finmap.lookup_insert_of_ne _ hk]
  · rw [limit_step, ref_limit]
  · rw [window_step, ref_window]

/-! ## The test scenarios, replayed on the model -/

theorem scenario_quick_succession :
    results (NewRateLimiter 3 60) [("user1", 0), ("user1", 1), ("user1", 2), ("user1", 3)] =
      [true, true, true, false] := by decide

theorem scenario_window_reset :
    results (NewRateLimiter 3 60) [("user1", 0), ("user1", 1), ("user1", 2), ("user1", 61)] =
      [true, true, true, true] := by decide

theorem scenario_window_boundary :
    results (NewRateLimiter 3 60) [("user1", 0), ("user1", 10), ("user1", 59), ("user1", 61)] =
      [true, true, true, true] := by decide

theorem scenario_edge_cases :
    results (NewRateLimiter 3 60)
        [("edgeUser", 0), ("edgeUser", 1), ("edgeUser", 2), ("edgeUser", 4), ("edgeUser", 61)] =
      [true, true, true, false, true] := by decide

theorem scenario_cleanup :
    (finalState (NewRateLimiter 3 60) [("user1", 0)]).users.keys.card = 1 ∧
    (finalState (NewRateLimiter 3 60) [("user1", 0), ("user1", 61)]).users.keys.card = 1 ∧
    (finalState (NewRateLimiter 3 60) [("user1", 0), ("user1", 61)]).users.lookup "user1" =
      some ⟨[61]⟩ := by decide


/-! ## The overflow of the cutoff: sufficient conditions -/

/-- Exact cutoffs at a call and at the moved call commute with the move. -/
theorem cutoff_shift_of_exact {w d : Duration} {now : Time} (h1 : CutoffExact w now)
    (h2 : CutoffExact w (now + d)) : cutoffAt w (now + d) = cutoffAt w now + d := by
  unfold CutoffExact at h1 h2
  rw [h1, h2]
  ring

/-- An exact cutoff is in particular not earlier than `now - window`. -/
theorem cutoff_ge_of_exact {w : Duration} {now : Time} (h : CutoffExact w now) :
    now - w ≤ cutoffAt w now := by
  unfold CutoffExact at h
  rw [h]

/-! ## The claims -/

/-- C1, at the failing input: limit 1, window 60 s, two calls for `u` at the
earliest instant. The input meets every condition of the claim, the computed
cutoff is `now` itself instead of `now - window`, both calls return `true`, and
right after the second call two admitted timestamps lie in the window ending at
`now`, more than the limit. -/
theorem C1_first_instant_admits_two :
    (1 : Int) ≤ 1 ∧ (0 : Int) < 60 * second ∧ Duration.IsInt64 (60 * second) ∧
    Time.InRange firstInstant ∧ PerKeyMonotone firstInstantCalls ∧
    firstInstantCalls[1]? = some ("u", firstInstant) ∧
    cutoffAt (60 * second) firstInstant = firstInstant ∧
    results (NewRateLimiter 1 (60 * second)) firstInstantCalls = [true, true] ∧
    (((admittedFor "u" ((trace (NewRateLimiter 1 (60 * second)) firstInstantCalls).take
      (1 + 1))).filter
        (fun t => decide (firstInstant - 60 * second < t ∧ t ≤ firstInstant))).length : Int) =
      2 := by
  decide

/-- C2, at the failing input: limit 1, window 60 s, two calls for `u` at the
earliest instant. The second call returns `true` although one earlier call for
`u` returned `true` with a timestamp strictly greater than `now - window`, which
is not fewer than the limit. -/
theorem C2_first_instant_second_call_admitted :
    (1 : Int) ≤ 1 ∧ (0 : Int) < 60 * second ∧ MonotoneFor "u" firstInstantCalls ∧
    firstInstantCalls[1]? = some ("u", firstInstant) ∧
    (results (NewRateLimiter 1 (60 * second)) firstInstantCalls)[1]? = some true ∧
    (((admittedFor "u" ((trace (NewRateLimiter 1 (60 * second)) firstInstantCalls).take
      1)).filter (fun t => decide (firstInstant - 60 * second < t))).length : Int) = 1 := by
  decide

/-- C3, as the code has it: in every state, for a call whose computed cutoff
`now.Add(-window)` is the instant `now - window`, `IsRequestAllowed k now`
returns `false` if and only if `k` is in the registry, some stored timestamp of
`k` is strictly after `now - window`, and at least `limit` stored timestamps of
`k` are strictly after `now - window`; when `k` is absent, or no stored
timestamp survives pruning, or fewer than `limit` survive, it returns `true`. -/
theorem C3_one_step_decision (r : RateLimiter) (k : String) (now : Time)
    (hex : CutoffExact r.window now) :
    ((IsRequestAllowed r k now).2 = false ↔
      (k ∈ r.users ∧ (∃ t ∈ storedTimes r k, now - r.window < t) ∧
        r.limit ≤ (((storedTimes r k).filter
          (fun t => decide (now - r.window < t))).length : Int))) ∧
    ((k ∉ r.users ∨ (∀ t ∈ storedTimes r k, ¬ now - r.window < t) ∨
        ((((storedTimes r k).filter
          (fun t => decide (now - r.window < t))).length : Int) < r.limit)) →
      (IsRequestAllowed r k now).2 = true) := by
  have hb := allowed_eq r k now
  rw [pruned_eq_liveAt hex] at hb
  have hex2 : (∃ t ∈ storedTimes r k, now - r.window < t) ↔
      liveAt r.window now (storedTimes r k) ≠ [] := by
    unfold liveAt
    rw [Ne, List.filter_eq_nil_iff]
    simp
  have hin : liveAt r.window now (storedTimes r k) ≠ [] → k ∈ r.users := by
    intro hne
    cases hlk : r.users.lookup k with
    | none => rw [storedTimes_of_absent hlk] at hne; exact absurd rfl hne
    | some u => exact Finmap.mem_of_lookup_eq_some hlk
  have hfalse : (IsRequestAllowed r k now).2 = false ↔
      (liveAt r.window now (storedTimes r k) ≠ [] ∧
        r.limit ≤ ((liveAt r.window now (storedTimes r k)).length : Int)) := by
    rw [hb, decide_eq_false_iff_not]
    push_neg
    rfl
  refine ⟨?_, ?_⟩
  · rw [hfalse, hex2]
    exact ⟨fun ⟨h1, h2⟩ => ⟨hin h1, h1, h2⟩, fun ⟨_, h1, h2⟩ => ⟨h1, h2⟩⟩
  · intro h
    by_contra hne
    have hf : (IsRequestAllowed r k now).2 = false := by simpa using hne
    obtain ⟨h1, h2⟩ := hfalse.mp hf
    rcases h with h | h | h
    · exact h (hin h1)
    · obtain ⟨t, ht, hlt⟩ := hex2.mpr h1
      exact h t ht hlt
    · have h3 : ((liveAt r.window now (storedTimes r k)).length : Int) < r.limit := h
      omega

/-- C3 fails as stated, at both ends of the overflow. After one call for `u` at
the earliest instant (limit 1, window 60 s), a second call at that instant meets
the three conditions for `false` and returns `true`. After one call for `u` at
0 with the minimum duration as window (limit 1), no stored timestamp is after
`now - window` for the call at 1, which returns `false`. -/
theorem C3_counterexample :
    ("u" ∈ firstInstantState.users ∧
      (∃ t ∈ storedTimes firstInstantState "u", firstInstant - firstInstantState.window < t) ∧
      firstInstantState.limit ≤ (((storedTimes firstInstantState "u").filter
        (fun t => decide (firstInstant - firstInstantState.window < t))).length : Int)) ∧
    (IsRequestAllowed firstInstantState "u" firstInstant).2 = true ∧
    (∀ t ∈ storedTimes minWindowState "u", ¬ 1 - minWindowState.window < t) ∧
    (IsRequestAllowed minWindowState "u" 1).2 = false := by
  decide

/-- C4, as the code has it: for a call whose computed cutoff `now.Add(-window)`
is the instant `now - window`, after `IsRequestAllowed k now` the stored
sequence of `k` is the previously stored timestamps `t` with `t > now - window`,
in their original order (none when `k` was absent), followed by `now` exactly
when the call returned `true`; a previously stored timestamp equal to
`now - window` is not among the kept ones. -/
theorem C4_state_update (r : RateLimiter) (k : String) (now : Time)
    (hex : CutoffExact r.window now) :
    (IsRequestAllowed r k now).1.users.lookup k =
      some ⟨(storedTimes r k).filter (fun t => decide (now - r.window < t)) ++
        (if (IsRequestAllowed r k now).2 = true then [now] else [])⟩ ∧
    ((storedTimes r k).filter (fun t => decide (now - r.window < t))).Sublist (storedTimes r k) ∧
    (k ∉ r.users → storedTimes r k = []) ∧
    now - r.window ∉ (storedTimes r k).filter (fun t => decide (now - r.window < t)) := by
  refine ⟨?_, List.filter_sublist _, ?_, ?_⟩
  · rw [lookup_self, pruned_eq_liveAt hex]
    rfl
  · intro h
    exact storedTimes_of_absent (Finmap.lookup_eq_none.mpr h)
  · simp

/-- C4 fails as stated, at both ends of the overflow. At the earliest instant
(limit 1, window 60 s) the stored timestamp is after `now - window` but is
pruned: the entry becomes `[now]` where the claim gives `[now, now]`. With the
minimum duration as window the stored 0 is not after `now - window` but is
kept: the entry stays `[0]` where the claim gives `[]`. -/
theorem C4_counterexample :
    (IsRequestAllowed firstInstantState "u" firstInstant).1.users.lookup "u" =
      some ⟨[firstInstant]⟩ ∧
    ((storedTimes firstInstantState "u").filter
        (fun t => decide (firstInstant - firstInstantState.window < t)) ++
      (if (IsRequestAllowed firstInstantState "u" firstInstant).2 = true
        then [firstInstant] else [])) = [firstInstant, firstInstant] ∧
    (IsRequestAllowed minWindowState "u" 1).1.users.lookup "u" = some ⟨[0]⟩ ∧
    ((storedTimes minWindowState "u").filter
        (fun t => decide (1 - minWindowState.window < t)) ++
      (if (IsRequestAllowed minWindowState "u" 1).2 = true then [1] else [])) = [] := by
  decide

/-- C5. A denied request leaves no trace: in every state reached from a fresh
limiter by any calls, under any policy, a call that returns `false` leaves the
limiter, registry included, exactly as it was; in particular the stored
sequence of the key and its length are unchanged, and the pruning loop of the
denied call removed nothing. -/
theorem C5_denied_leaves_no_trace (limit : Int) (window : Duration) (calls : List Call)
    (k : String) (now : Time)
    (hd : (IsRequestAllowed (finalState (NewRateLimiter limit window) calls) k now).2 = false) :
    (IsRequestAllowed (finalState (NewRateLimiter limit window) calls) k now).1 =
        finalState (NewRateLimiter limit window) calls ∧
    (IsRequestAllowed (finalState (NewRateLimiter limit window) calls) k now).1.users =
        (finalState (NewRateLimiter limit window) calls).users ∧
    storedTimes (IsRequestAllowed (finalState (NewRateLimiter limit window) calls) k now).1 k =
        storedTimes (finalState (NewRateLimiter limit window) calls) k ∧
    (storedTimes (finalState (NewRateLimiter limit window) calls) k).filter
        (fun t => Time.After t (Time.Add now (Duration.neg window))) =
      storedTimes (finalState (NewRateLimiter limit window) calls) k := by
  have hg := good_finalState _ calls (good_new limit window)
  have heq := denied_noop _ k now hg hd
  refine ⟨heq, by rw [heq], by rw [heq], ?_⟩
  have hst := storedTimes_self (finalState (NewRateLimiter limit window) calls) k now
  rw [heq, hd, window_finalState] at hst
  simpa [pruned, cutoffAt, NewRateLimiter] using hst.symm

/-- C6, as the code has it: in every state, if `k` is in the registry, every
stored timestamp `t` of `k` has `t ≤ now - window`, and the computed cutoff
`now.Add(-window)` is not earlier than `now - window`, then
`IsRequestAllowed k now` returns `true` and the stored sequence of `k`
afterwards is exactly `[now]`, whatever the limit. -/
theorem C6_reset_after_expiry (r : RateLimiter) (k : String) (now : Time) (u : UserLimit)
    (hu : r.users.lookup k = some u) (hexp : ∀ t ∈ u.requestTimes, t ≤ now - r.window)
    (hcut : now - r.window ≤ cutoffAt r.window now) :
    (IsRequestAllowed r k now).2 = true ∧
    (IsRequestAllowed r k now).1.users.lookup k = some ⟨[now]⟩ := by
  have hlive : pruned r.window now (storedTimes r k) = [] := by
    rw [storedTimes_of_lookup hu]
    exact pruned_eq_nil hcut _ hexp
  have hb : (IsRequestAllowed r k now).2 = true := by
    rw [allowed_eq, hlive]; simp
  refine ⟨hb, ?_⟩
  rw [lookup_self, hlive, hb]
  rfl

/-- C6 fails as stated: with the minimum duration as window (limit 1), after one
call for `u` at 0, the stored 0 is at or before `now - window` for the call at
1, but the wrapped cutoff keeps it: the call returns `false` and the entry
stays `[0]`. -/
theorem C6_counterexample :
    minWindowState.users.lookup "u" = some ⟨[0]⟩ ∧
    (∀ t ∈ ([0] : List Time), t ≤ 1 - minWindowState.window) ∧
    (IsRequestAllowed minWindowState "u" 1).2 = false ∧
    (IsRequestAllowed minWindowState "u" 1).1.users.lookup "u" = some ⟨[0]⟩ := by
  decide

/-- C7. Bounded per-key storage: with `limit ≥ 1`, in every state reached from a
fresh limiter by any calls (any keys, any timestamps), the stored sequence of
every key of the registry has length at most `limit`. -/
theorem C7_bounded_storage (limit : Int) (window : Duration) (hl : 1 ≤ limit)
    (calls : List Call) (k : String) (u : UserLimit)
    (hu : (finalState (NewRateLimiter limit window) calls).users.lookup k = some u) :
    (u.requestTimes.length : Int) ≤ limit := by
  have h := stored_length_le limit window hl calls k
  rw [storedTimes_of_lookup hu] at h
  exact h

/-- C8, at the failing input: limit 1, window 60 s, key `u` absent, a burst of
two calls at the earliest instant. The two timestamps differ by 0, less than the
window, so the claim gives `[true, false]`; both calls return `true`. -/
theorem C8_first_instant_burst :
    (1 : Int) ≤ (NewRateLimiter 1 (60 * second)).limit ∧
    0 < (NewRateLimiter 1 (60 * second)).window ∧
    "u" ∉ (NewRateLimiter 1 (60 * second)).users ∧
    (∀ a ∈ [firstInstant, firstInstant], ∀ b ∈ [firstInstant, firstInstant],
      a - b < (NewRateLimiter 1 (60 * second)).window) ∧
    results (NewRateLimiter 1 (60 * second))
      ([firstInstant, firstInstant].map (fun t => ("u", t))) = [true, true] ∧
    List.replicate (min 2 (1 : Int).toNat) true ++
      List.replicate (2 - min 2 (1 : Int).toNat) false = [true, false] := by
  decide

/-- C9. No cross-key interference: in a run from a fresh limiter, under any
policy, the booleans returned to the calls for `k` are those returned when only
the calls for `k`, in the same order, are replayed on a fresh limiter with the
same policy. -/
theorem C9_no_cross_key_interference (limit : Int) (window : Duration) (calls : List Call)
    (k : String) :
    ((trace (NewRateLimiter limit window) calls).filter
        (fun e => decide (e.1.1 = k))).map (fun e => e.2) =
      results (NewRateLimiter limit window) (calls.filter (fun c => decide (c.1 = k))) :=
  results_filter_key k calls _ _ rfl rfl rfl

/-- C10. A call touches only the entry of its own key: after
`IsRequestAllowed k now` the key `k` is in the registry, every other key has the
entry it had before (present or absent, same stored sequence), `limit` and
`window` are unchanged, the key set is the old one with `k` added, so the number
of keys is unchanged when `k` was present and one more when it was absent, and
no key is removed. -/
theorem C10_call_touches_own_key (r : RateLimiter) (k : String) (now : Time) :
    k ∈ (IsRequestAllowed r k now).1.users ∧
    (∀ k2, k2 ≠ k → (IsRequestAllowed r k now).1.users.lookup k2 = r.users.lookup k2) ∧
    (∀ k2, k2 ≠ k → (k2 ∈ (IsRequestAllowed r k now).1.users ↔ k2 ∈ r.users)) ∧
    (IsRequestAllowed r k now).1.limit = r.limit ∧
    (IsRequestAllowed r k now).1.window = r.window ∧
    (IsRequestAllowed r k now).1.users.keys = insert k r.users.keys ∧
    (IsRequestAllowed r k now).1.users.keys.card =
      r.users.keys.card + (if k ∈ r.users then 0 else 1) ∧
    r.users.keys ⊆ (IsRequestAllowed r k now).1.users.keys := by
  refine ⟨Finmap.mem_of_lookup_eq_some (lookup_self r k now),
    fun k2 hk => lookup_other r k now hk, ?_, limit_step r k now, window_step r k now,
    keys_step r k now, ?_, ?_⟩
  · intro k2 hk
    rw [← Finmap.lookup_isSome, ← Finmap.lookup_isSome, lookup_other r k now hk]
  · rw [keys_step]
    by_cases hk : k ∈ r.users
    · rw [Finset.card_insert_of_mem (Finmap.mem_keys.mpr hk)]
      simp [hk]
    · rw [Finset.card_insert_of_not_mem (fun h => hk (Finmap.mem_keys.mp h))]
      simp [hk]
  · rw [keys_step]
    exact Finset.subset_insert _ _

/-- C11, as the code has it: `NewRateLimiter` validates nothing. For every
`limit` and `window`, non-positive ones included, it returns a limiter with an
empty registry that holds exactly that `limit` and `window`; every call of every
run on it returns a boolean and leaves `limit` and `window` as given. -/
theorem C11_construction_accepts_any_policy (limit : Int) (window : Duration) :
    (NewRateLimiter limit window).limit = limit ∧
    (NewRateLimiter limit window).window = window ∧
    (NewRateLimiter limit window).users = ∅ ∧
    ∀ calls : List Call,
      (results (NewRateLimiter limit window) calls).length = calls.length ∧
      (finalState (NewRateLimiter limit window) calls).limit = limit ∧
      (finalState (NewRateLimiter limit window) calls).window = window :=
  ⟨rfl, rfl, rfl, fun calls =>
    ⟨results_length _ calls, limit_finalState _ calls, window_finalState _ calls⟩⟩

/-- C11 fails as stated: `NewRateLimiter 0 (-5)` is built with a non-positive
limit and a non-positive window, and the limiter operates with them. -/
theorem C11_counterexample :
    ((0 : Int) ≤ 0 ∧ (-5 : Duration) ≤ 0) ∧
    (NewRateLimiter 0 (-5)).limit = 0 ∧ (NewRateLimiter 0 (-5)).window = -5 ∧
    results (NewRateLimiter 0 (-5)) [("user1", 0), ("user1", 1)] = [true, true] ∧
    (finalState (NewRateLimiter 0 (-5)) [("user1", 0), ("user1", 1)]).limit = 0 ∧
    (finalState (NewRateLimiter 0 (-5)) [("user1", 0), ("user1", 1)]).window = -5 := by
  decide

/-- C12. Stored timestamps are live: with `window > 0`, in every state, after
`IsRequestAllowed k now` every timestamp `t` stored for `k` has
`t > now - window`, whether the call was admitted or denied. The window is a
64-bit duration and `now` a representable instant. -/
theorem C12_stored_timestamps_live (r : RateLimiter) (k : String) (now : Time)
    (hw : 0 < r.window) (hwin : Duration.IsInt64 r.window) (hnow : Time.InRange now) :
    ∀ t ∈ storedTimes (IsRequestAllowed r k now).1 k, now - r.window < t := by
  have hcut : now - r.window ≤ cutoffAt r.window now := cutoff_ge_of_pos hw hwin.2 hnow
  intro t ht
  rw [storedTimes_self, List.mem_append] at ht
  rcases ht with ht | ht
  · exact pruned_live hcut _ t ht
  · split_ifs at ht
    · simp only [List.mem_singleton] at ht
      rw [ht]
      linarith
    · simp at ht

/-- C13. No empty entry: in every state reached from a fresh limiter by any
calls, under any policy, every key of the registry has a non-empty stored
sequence. -/
theorem C13_no_empty_entry (limit : Int) (window : Duration) (calls : List Call)
    (k : String) (u : UserLimit)
    (hu : (finalState (NewRateLimiter limit window) calls).users.lookup k = some u) :
    u.requestTimes ≠ [] := by
  have h := (good_finalState _ calls (good_new limit window) k u hu).1
  exact List.length_pos.mp h

/-- C14. Only admitted requests are stored: at every point `n` of a run from a
fresh limiter, the stored sequence of `k` is a subsequence, in the same order,
of the timestamps of the earlier calls for `k` that returned `true`; so every
stored timestamp of `k` is the timestamp of an earlier call for `k` that was
admitted. -/
theorem C14_only_admitted_stored (limit : Int) (window : Duration) (calls : List Call)
    (k : String) (n : Nat) :
    (storedTimes (finalState (NewRateLimiter limit window) (calls.take n)) k).Sublist
      (admittedFor k ((trace (NewRateLimiter limit window) calls).take n)) ∧
    ∀ t ∈ storedTimes (finalState (NewRateLimiter limit window) (calls.take n)) k,
      ((k, t), true) ∈ (trace (NewRateLimiter limit window) calls).take n := by
  rw [trace_take]
  have hsub := stored_sublist_admitted limit window (calls.take n) k
  refine ⟨hsub, ?_⟩
  intro t ht
  have hmem := hsub.subset ht
  simp only [admittedFor, List.mem_map, List.mem_filter, Bool.and_eq_true,
    decide_eq_true_eq] at hmem
  obtain ⟨e, ⟨he, hk, hb⟩, het⟩ := hmem
  have : e = ((k, t), true) := by
    rcases e with ⟨⟨a, b⟩, c⟩
    simp only at hk hb het
    rw [hk, hb, het]
  rw [← this]
  exact he

/-- C15, as the code has it: in every state reached from a fresh limiter by
calls in which the timestamps of the calls for `k` are non-decreasing (the
other keys and their timestamps arbitrary), the stored sequence of `k` is in
ascending order. -/
theorem C15_ascending_under_monotone_time (limit : Int) (window : Duration)
    (calls : List Call) (k : String) (hm : MonotoneFor k calls) :
    (storedTimes (finalState (NewRateLimiter limit window) calls) k).Pairwise
      (fun a b => a ≤ b) :=
  List.Pairwise.sublist (stored_sublist_admitted limit window calls k)
    (admitted_pairwise _ k calls hm)

/-- C15 fails as stated: after the calls `user1` at 10 and `user1` at 5 the
stored sequence is `[10, 5]`, which is not ascending. -/
theorem C15_counterexample :
    storedTimes (finalState (NewRateLimiter 3 60) [("user1", 10), ("user1", 5)]) "user1" =
      [10, 5] ∧
    ¬ (storedTimes (finalState (NewRateLimiter 3 60) [("user1", 10), ("user1", 5)])
      "user1").Pairwise (fun a b => a ≤ b) := by
  decide

/-- C16, at the failing input: limit 3, window 60 s, calls for `a` at 0 s, 1 s,
2 s, 70 s and 5 s. The call at 70 s prunes the three stored timestamps, so the
call at 5 s is admitted: all five calls return `true`, and right after the call
at 5 s four admitted timestamps (0 s, 1 s, 2 s, 5 s) lie in the window ending
at 5 s, more than the limit. No cutoff overflows in this run. -/
theorem C16_backward_timestamp_admits_four :
    (1 : Int) ≤ 3 ∧ (0 : Int) < 60 * second ∧
    backwardCalls[4]? = some ("a", 5 * second) ∧
    (∀ c ∈ backwardCalls, CutoffExact (60 * second) c.2) ∧
    results (NewRateLimiter 3 (60 * second)) backwardCalls = [true, true, true, true, true] ∧
    (((admittedFor "a" ((trace (NewRateLimiter 3 (60 * second)) backwardCalls).take
      (4 + 1))).filter
        (fun t => decide (5 * second - 60 * second < t ∧ t ≤ 5 * second))).length : Int) =
      4 := by
  decide

/-- C18, as the code has it: with `limit ≥ 1`, in every state, for a call whose
computed cutoff `now.Add(-window)` is the instant `now - window`,
`IsRequestAllowed` returns the same boolean and the same limiter state,
registry included, as the two-branch reference; and, for every call, deleting
the key and inserting `[now]` again equals overwriting its entry with `[now]`. -/
theorem C18_two_branch_reference (r : RateLimiter) (k : String) (now : Time)
    (hl : 1 ≤ r.limit) (hex : CutoffExact r.window now) :
    (IsRequestAllowed r k now).2 = (IsRequestAllowedRef r k now).2 ∧
    (IsRequestAllowed r k now).1.users = (IsRequestAllowedRef r k now).1.users ∧
    IsRequestAllowed r k now = IsRequestAllowedRef r k now ∧
    ∀ old : UserLimit,
      ((r.users.insert k old).erase k).insert k ⟨[now]⟩ = r.users.insert k ⟨[now]⟩ := by
  have h := allowed_eq_ref r k now hl hex
  exact ⟨by rw [h], by rw [h], h, fun old => erase_insert_eq r.users k old ⟨[now]⟩⟩

/-- C18 fails as stated: after one call for `u` at the earliest instant (limit
1, window 60 s), for a second call at that instant the code returns `true` and
stores `[now]`, the reference returns `false` and stores the kept timestamp. -/
theorem C18_counterexample :
    1 ≤ firstInstantState.limit ∧
    (IsRequestAllowed firstInstantState "u" firstInstant).2 = true ∧
    (IsRequestAllowedRef firstInstantState "u" firstInstant).2 = false ∧
    IsRequestAllowed firstInstantState "u" firstInstant ≠
      IsRequestAllowedRef firstInstantState "u" firstInstant := by
  decide

/-- C19, as the code has it: for every policy, every run from a fresh limiter
and every duration `d` such that, for every call, the cutoff computed for the
moved timestamp is the cutoff computed for the timestamp, moved by `d`:
replaying the calls with `d` added to every timestamp returns the same booleans,
and the final registry holds the same keys with `d` added to every stored
timestamp; `limit` and `window` are the same. -/
theorem C19_time_translation (limit : Int) (window : Duration) (calls : List Call)
    (d : Duration)
    (hc : ∀ c ∈ calls, cutoffAt window (c.2 + d) = cutoffAt window c.2 + d) :
    results (NewRateLimiter limit window) (shiftCalls d calls) =
      results (NewRateLimiter limit window) calls ∧
    (∀ k, (finalState (NewRateLimiter limit window) (shiftCalls d calls)).users.lookup k =
      ((finalState (NewRateLimiter limit window) calls).users.lookup k).map
        (UserLimit.shift d)) ∧
    (finalState (NewRateLimiter limit window) (shiftCalls d calls)).limit =
      (finalState (NewRateLimiter limit window) calls).limit ∧
    (finalState (NewRateLimiter limit window) (shiftCalls d calls)).window =
      (finalState (NewRateLimiter limit window) calls).window := by
  have h := run_shift d calls (NewRateLimiter limit window) (NewRateLimiter limit window)
    rfl rfl (fun k2 => by simp [NewRateLimiter, Finmap.lookup_empty]) hc
  exact ⟨h.1, h.2, by rw [limit_finalState, limit_finalState],
    by rw [window_finalState, window_finalState]⟩

/-- C19 fails as stated: with limit 1 and window 60 s, two calls for `u` 100 s
after the earliest instant return `[true, false]`; moved by `-100 s`, onto the
earliest instant, they return `[true, true]`. All timestamps are representable. -/
theorem C19_counterexample :
    (∀ c ∈ nearFirstCalls, Time.InRange c.2) ∧
    (∀ c ∈ shiftCalls (-(100 * second)) nearFirstCalls, Time.InRange c.2) ∧
    shiftCalls (-(100 * second)) nearFirstCalls = firstInstantCalls ∧
    results (NewRateLimiter 1 (60 * second)) nearFirstCalls = [true, false] ∧
    results (NewRateLimiter 1 (60 * second)) (shiftCalls (-(100 * second)) nearFirstCalls) =
      [true, true] := by
  decide

/-- C20, as the code has it: with `limit ≤ 0`, a call for a key that is absent,
or whose stored timestamps `t` all have `t ≤ now - window` while the computed
cutoff `now.Add(-window)` is not earlier than `now - window`, returns `true` and
stores `[now]`, a stored sequence of length 1, greater than `limit`. -/
theorem C20_nonpositive_limit_admits (r : RateLimiter) (k : String) (now : Time)
    (hl : r.limit ≤ 0)
    (h : k ∉ r.users ∨
      (now - r.window ≤ cutoffAt r.window now ∧ ∀ t ∈ storedTimes r k, t ≤ now - r.window)) :
    (IsRequestAllowed r k now).2 = true ∧
    (IsRequestAllowed r k now).1.users.lookup k = some ⟨[now]⟩ ∧
    storedTimes (IsRequestAllowed r k now).1 k = [now] ∧
    (IsRequestAllowed r k now).1.limit <
      ((storedTimes (IsRequestAllowed r k now).1 k).length : Int) := by
  have hlive : pruned r.window now (storedTimes r k) = [] := by
    rcases h with h | h
    · rw [storedTimes_of_absent (Finmap.lookup_eq_none.mpr h)]
      rfl
    · exact pruned_eq_nil h.1 _ h.2
  have hb : (IsRequestAllowed r k now).2 = true := by
    rw [allowed_eq, hlive]; simp
  have hlk : (IsRequestAllowed r k now).1.users.lookup k = some ⟨[now]⟩ := by
    rw [lookup_self, hlive, hb]; rfl
  have hst : storedTimes (IsRequestAllowed r k now).1 k = [now] := storedTimes_of_lookup hlk
  refine ⟨hb, hlk, hst, ?_⟩
  rw [hst, limit_step]
  simp only [List.length_singleton, Nat.cast_one]
  linarith

/-- C20 fails as stated: with limit 0 and the minimum duration as window, after
one call for `u` at 0, the stored 0 is at or before `now - window` for the call
at 1, but the wrapped cutoff keeps it and the call returns `false`. -/
theorem C20_counterexample :
    minWindowZeroLimitState.limit ≤ 0 ∧
    storedTimes minWindowZeroLimitState "u" = [0] ∧
    (∀ t ∈ storedTimes minWindowZeroLimitState "u", t ≤ 1 - minWindowZeroLimitState.window) ∧
    (IsRequestAllowed minWindowZeroLimitState "u" 1).2 = false := by
  decide

/-! ## The claims at concrete inputs -/

theorem C3_witness :
    CutoffExact (finalState (NewRateLimiter 3 60) sampleBurst).window 3 ∧
    (IsRequestAllowed (finalState (NewRateLimiter 3 60) sampleBurst) "user1" 3).2 = false ∧
    ((IsRequestAllowed (finalState (NewRateLimiter 3 60) sampleBurst) "user1" 3).2 = false ↔
      ("user1" ∈ (finalState (NewRateLimiter 3 60) sampleBurst).users ∧
        (∃ t ∈ storedTimes (finalState (NewRateLimiter 3 60) sampleBurst) "user1",
          3 - (finalState (NewRateLimiter 3 60) sampleBurst).window < t) ∧
        (finalState (NewRateLimiter 3 60) sampleBurst).limit ≤
          (((storedTimes (finalState (NewRateLimiter 3 60) sampleBurst) "user1").filter
            (fun t => decide
              (3 - (finalState (NewRateLimiter 3 60) sampleBurst).window < t))).length : Int))) :=
  ⟨by decide, by decide,
    (C3_one_step_decision (finalState (NewRateLimiter 3 60) sampleBurst) "user1" 3
      (by decide)).1⟩

theorem C4_witness :
    CutoffExact (finalState (NewRateLimiter 3 60) sampleBurst).window 61 ∧
    (IsRequestAllowed (finalState (NewRateLimiter 3 60) sampleBurst) "user1" 61).1.users.lookup
      "user1" =
      some ⟨(storedTimes (finalState (NewRateLimiter 3 60) sampleBurst) "user1").filter
          (fun t => decide (61 - (finalState (NewRateLimiter 3 60) sampleBurst).window < t)) ++
        (if (IsRequestAllowed (finalState (NewRateLimiter 3 60) sampleBurst) "user1" 61).2 = true
          then [61] else [])⟩ :=
  ⟨by decide,
    (C4_state_update (finalState (NewRateLimiter 3 60) sampleBurst) "user1" 61 (by decide)).1⟩

theorem C5_witness :
    (IsRequestAllowed (finalState (NewRateLimiter 3 60) sampleBurst) "user1" 3).2 = false ∧
    (IsRequestAllowed (finalState (NewRateLimiter 3 60) sampleBurst) "user1" 3).1 =
      finalState (NewRateLimiter 3 60) sampleBurst :=
  ⟨by decide, (C5_denied_leaves_no_trace 3 60 sampleBurst "user1" 3 (by decide)).1⟩

theorem C6_witness :
    (finalState (NewRateLimiter 3 60) sampleBurst).users.lookup "user1" = some ⟨[0, 1, 2]⟩ ∧
    (∀ t ∈ ([0, 1, 2] : List Time), t ≤ 62 - 60) ∧
    (62 : Time) - 60 ≤ cutoffAt 60 62 ∧
    (IsRequestAllowed (finalState (NewRateLimiter 3 60) sampleBurst) "user1" 62).2 = true ∧
    (IsRequestAllowed (finalState (NewRateLimiter 3 60) sampleBurst) "user1" 62).1.users.lookup
      "user1" = some ⟨[62]⟩ :=
  ⟨by decide, by decide, by decide,
    C6_reset_after_expiry (finalState (NewRateLimiter 3 60) sampleBurst) "user1" 62
      ⟨[0, 1, 2]⟩ (by decide) (by decide) (by decide)⟩

theorem C7_witness :
    (finalState (NewRateLimiter 3 60) (sampleBurst ++ [("user1", 3)])).users.lookup "user1" =
      some ⟨[0, 1, 2]⟩ ∧
    (([0, 1, 2] : List Time).length : Int) ≤ 3 :=
  ⟨by decide,
    C7_bounded_storage 3 60 (by decide) (sampleBurst ++ [("user1", 3)]) "user1" ⟨[0, 1, 2]⟩
      (by decide)⟩

theorem C12_witness :
    (0 : Int) < (finalState (NewRateLimiter 3 60) sampleBurst).window ∧
    Duration.IsInt64 (finalState (NewRateLimiter 3 60) sampleBurst).window ∧
    Time.InRange 61 ∧
    ∀ t ∈ storedTimes (IsRequestAllowed (finalState (NewRateLimiter 3 60) sampleBurst)
        "user1" 61).1 "user1",
      61 - (finalState (NewRateLimiter 3 60) sampleBurst).window < t :=
  ⟨by decide, by decide, by decide,
    C12_stored_timestamps_live (finalState (NewRateLimiter 3 60) sampleBurst) "user1" 61
      (by decide) (by decide) (by decide)⟩

theorem C13_witness :
    (finalState (NewRateLimiter 0 60) [("user1", 0), ("user1", 1), ("user1", 61)]).users.lookup
      "user1" = some ⟨[61]⟩ ∧
    ([61] : List Time) ≠ [] :=
  ⟨by decide,
    C13_no_empty_entry 0 60 [("user1", 0), ("user1", 1), ("user1", 61)] "user1" ⟨[61]⟩
      (by decide)⟩

theorem C15_witness :
    MonotoneFor "user1" mixedCalls ∧
    (storedTimes (finalState (NewRateLimiter 3 60) mixedCalls) "user1").Pairwise
      (fun a b => a ≤ b) :=
  ⟨by decide, C15_ascending_under_monotone_time 3 60 mixedCalls "user1" (by decide)⟩

theorem C18_witness :
    1 ≤ (finalState (NewRateLimiter 3 60) sampleBurst).limit ∧
    CutoffExact (finalState (NewRateLimiter 3 60) sampleBurst).window 62 ∧
    IsRequestAllowed (finalState (NewRateLimiter 3 60) sampleBurst) "user1" 62 =
      IsRequestAllowedRef (finalState (NewRateLimiter 3 60) sampleBurst) "user1" 62 :=
  ⟨by decide, by decide,
    (C18_two_branch_reference (finalState (NewRateLimiter 3 60) sampleBurst) "user1" 62
      (by decide) (by decide)).2.2.1⟩

theorem C19_witness :
    (∀ c ∈ sampleCalls, cutoffAt 60 (c.2 + 1000) = cutoffAt 60 c.2 + 1000) ∧
    results (NewRateLimiter 3 60) (shiftCalls 1000 sampleCalls) =
      results (NewRateLimiter 3 60) sampleCalls :=
  ⟨by decide, (C19_time_translation 3 60 sampleCalls 1000 (by decide)).1⟩

theorem C20_witness :
    (finalState (NewRateLimiter 0 60) [("user1", 0)]).limit ≤ 0 ∧
    (61 : Time) - 60 ≤ cutoffAt 60 61 ∧
    (∀ t ∈ storedTimes (finalState (NewRateLimiter 0 60) [("user1", 0)]) "user1",
      t ≤ 61 - (finalState (NewRateLimiter 0 60) [("user1", 0)]).window) ∧
    (IsRequestAllowed (finalState (NewRateLimiter 0 60) [("user1", 0)]) "user1" 61).2 = true ∧
    storedTimes (IsRequestAllowed (finalState (NewRateLimiter 0 60) [("user1", 0)])
      "user1" 61).1 "user1" = [61] :=
  ⟨by decide, by decide, by decide,
    (C20_nonpositive_limit_admits (finalState (NewRateLimiter 0 60) [("user1", 0)]) "user1" 61
      (by decide) (Or.inr ⟨by decide, by decide⟩)).1,
    (C20_nonpositive_limit_admits (finalState (NewRateLimiter 0 60) [("user1", 0)]) "user1" 61
      (by decide) (Or.inr ⟨by decide, by decide⟩)).2.2.1⟩

end RateLimit
